import Mathlib

/-!
Verification of the Interview-preparation repository's core components,
shallowly embedded in Lean 4 from the Python source:

* `backend/calendar_utils.py` — the slot finder `_find_next_available_slot`
  and the scheduling loop `smart_schedule_quests`.  Timestamps are modelled
  as `Int` minutes; `datetime.replace(hour=h, minute=0, ...)` becomes
  day-midnight plus `h * 60` using Python-style (flooring) remainder.
* `plan_parser.py` — `parse_markdown_to_plan`, with the two regexes
  (`Day\s+(\d+)` searched case-insensitively, and the anchored task pattern
  `-\s+(\d+)\s*mins?:\s*\*\*(.*?)\*\*\s*-\s*(.*)`) implemented character by
  character over the line, including the lazy-group backtracking of `(.*?)`.
* `backend/game_logic.py` / `backend/game_manager.py` /
  `backend/quiz_engine.py` — `init_game_state`, `_grade_quiz`,
  `process_quiz_submission` and `start_new_quiz`.  Python dicts become
  structures; a possibly-absent dict key (`'lives'`) becomes an `Option`;
  statements that can raise return `Except`, carrying the object state at
  raise time so that "no state mutation" is expressible.  The float
  constant `QUIZ_PASS_THRESHOLD = 0.67` is modelled by its exact binary64
  value `6034823500676465 / 2^53`, and the product it enters is rounded
  to nearest-even — all in integer arithmetic, so the model reproduces
  the program's floating-point pass test bit for bit; `random.choice`
  and the AI oracles are injected as parameters.
-/

/-! ## Slot finder (`backend/calendar_utils.py`, `_find_next_available_slot`) -/

/-- The inner `for busy_start, busy_end in busy_slots` scan of
`_find_next_available_slot`: returns `some busy_end` for the first busy slot
overlapping `[ps, pe)` under the half-open test
`proposed_start < busy_end and proposed_end > busy_start`, else `none`. -/
def findConflict (ps pe : Int) : List (Int × Int) → Option Int
  | [] => none
  | b :: rest => if ps < b.2 ∧ pe > b.1 then some b.2 else findConflict ps pe rest

theorem findConflict_eq_none_iff (ps pe : Int) (busy : List (Int × Int)) :
    findConflict ps pe busy = none ↔ ∀ b ∈ busy, ¬(ps < b.2 ∧ pe > b.1) := by
  induction busy with
  | nil => simp [findConflict]
  | cons b rest ih =>
    by_cases h : ps < b.2 ∧ pe > b.1
    · simp only [findConflict, if_pos h]
      constructor
      · intro hc; exact absurd hc (by simp)
      · intro hall; exact absurd h (hall b (by simp))
    · simp only [findConflict, if_neg h, ih]
      constructor
      · intro hall b' hb'
        rcases List.mem_cons.mp hb' with h1 | h2
        · exact h1 ▸ h
        · exact hall b' h2
      · intro hall b' hb'
        exact hall b' (List.mem_cons_of_mem b hb')

theorem findConflict_some (ps pe : Int) {busy : List (Int × Int)} {be : Int}
    (h : findConflict ps pe busy = some be) : ps < be ∧ ∃ b ∈ busy, be = b.2 := by
  induction busy with
  | nil => simp [findConflict] at h
  | cons b rest ih =>
    by_cases hb : ps < b.2 ∧ pe > b.1
    · simp [findConflict, hb] at h
      exact ⟨h ▸ hb.1, b, by simp, h.symm⟩
    · simp [findConflict, hb] at h
      obtain ⟨h1, b', hb', he⟩ := ih h
      exact ⟨h1, b', by simp [hb'], he⟩

/-- Each detected conflict strictly shrinks the number of busy slots whose end
still lies ahead of the proposed start: the measure that bounds the
conflict-resolution loop. -/
theorem findConflict_measure (ps pe : Int) {busy : List (Int × Int)} {be : Int}
    (h : findConflict ps pe busy = some be) :
    (busy.filter fun b => decide (be + 1 < b.2)).length <
      (busy.filter fun b => decide (ps < b.2)).length := by
  induction busy with
  | nil => simp [findConflict] at h
  | cons b rest ih =>
    have hlt : ps < be := (findConflict_some ps pe h).1
    simp only [findConflict] at h
    by_cases hb : ps < b.2 ∧ pe > b.1
    · rw [if_pos hb] at h
      have hbe : b.2 = be := Option.some.inj h
      have h1 : ¬ (be + 1 < b.2) := by omega
      have hsub : (rest.filter fun x => decide (be + 1 < x.2)).Sublist
          (rest.filter fun x => decide (ps < x.2)) := by
        apply List.monotone_filter_right
        intro x hx
        simp only [decide_eq_true_eq] at hx ⊢
        omega
      have hlen := hsub.length_le
      rw [List.filter_cons, List.filter_cons]
      rw [if_neg (by simpa using h1), if_pos (by simp [hb.1])]
      simpa using Nat.lt_succ_of_le hlen
    · rw [if_neg hb] at h
      have ihlt := ih h
      rw [List.filter_cons, List.filter_cons]
      by_cases h1 : be + 1 < b.2
      · have h2 : ps < b.2 := by omega
        rw [if_pos (by simpa using h1), if_pos (by simpa using h2)]
        simpa using Nat.succ_lt_succ ihlt
      · by_cases h2 : ps < b.2
        · rw [if_neg (by simpa using h1), if_pos (by simpa using h2)]
          simp only [List.length_cons]
          omega
        · rw [if_neg (by simpa using h1), if_neg (by simpa using h2)]
          exact ihlt

/-- `_find_next_available_slot` (calendar_utils.py lines 173–192): the
`while True` loop proposing `[proposed_start, proposed_start + duration)`,
jumping to `busy_end + 1` (one-minute buffer) on the first conflict and
rescanning from the start of the busy list. -/
def find_next_available_slot (ps dur : Int) (busy : List (Int × Int)) : Int × Int :=
  match h : findConflict ps (ps + dur) busy with
  | none => (ps, ps + dur)
  | some be => find_next_available_slot (be + 1) dur busy
termination_by (busy.filter fun b => decide (ps < b.2)).length
decreasing_by exact findConflict_measure ps (ps + dur) h

/-- The returned slot starts a conflict-free scan: its first component plus
the duration is its second, and no busy slot overlaps it. -/
theorem find_next_available_slot_spec (ps dur : Int) (busy : List (Int × Int)) :
    (find_next_available_slot ps dur busy).2 =
      (find_next_available_slot ps dur busy).1 + dur ∧
    findConflict (find_next_available_slot ps dur busy).1
      (find_next_available_slot ps dur busy).2 busy = none := by
  generalize hm : (busy.filter fun b => decide (ps < b.2)).length = n
  induction n using Nat.strong_induction_on generalizing ps with
  | _ n ih =>
    rw [find_next_available_slot]
    cases h : findConflict ps (ps + dur) busy with
    | none => exact ⟨rfl, h⟩
    | some be =>
      exact ih _ (hm ▸ findConflict_measure ps (ps + dur) h) (be + 1) rfl

/-- The same loop with an explicit iteration cap, as a defensive
implementation would write it: `none` when the cap is exhausted. -/
def findSlotFuel : Nat → Int → Int → List (Int × Int) → Option (Int × Int)
  | 0, _, _, _ => none
  | n + 1, ps, dur, busy =>
    match findConflict ps (ps + dur) busy with
    | none => some (ps, ps + dur)
    | some be => findSlotFuel n (be + 1) dur busy

theorem findSlotFuel_eq_of_lt (dur : Int) (busy : List (Int × Int)) :
    ∀ n ps, (busy.filter fun b => decide (ps < b.2)).length < n →
      findSlotFuel n ps dur busy = some (find_next_available_slot ps dur busy) := by
  intro n
  induction n with
  | zero => intro ps h; omega
  | succ n ih =>
    intro ps h
    rw [find_next_available_slot]
    cases hc : findConflict ps (ps + dur) busy with
    | none => simp [findSlotFuel, hc]
    | some be =>
      have hdec := findConflict_measure ps (ps + dur) hc
      simp only [findSlotFuel, hc]
      exact ih (be + 1) (by omega)

/-! ## Plan data model (`local_agents/writer.py`) -/

/-- A study task: `duration` in minutes, `name`, `description`. -/
structure PlanTask where
  duration : Nat
  name : String
  description : String
deriving DecidableEq, Repr

/-- A day's ordered tasks under a day index. -/
structure DailyPlan where
  day : Nat
  tasks : List PlanTask
deriving DecidableEq, Repr

/-- The root parsed plan. -/
structure CompletePlan where
  short_summary : String
  daily_plans : List DailyPlan
deriving DecidableEq, Repr

/-! ## Scheduler (`backend/calendar_utils.py`, `smart_schedule_quests`)

Timestamps are minutes since an epoch.  A day is 1440 minutes;
`cursor.replace(hour=preferred_hour, minute=0, second=0, microsecond=0)`
is the cursor's day-midnight plus `preferred_hour * 60` (Python `%` and
Lean's `Int.emod` agree: both give a nonnegative remainder). -/

/-- Day re-alignment (lines 132–135): move to `preferred_hour` on the
cursor's day, or the next day if that would move the cursor backward. -/
def alignToHour (cursor prefHour : Int) : Int :=
  let t := cursor - cursor % 1440 + prefHour * 60
  if t < cursor then t + 1440 else t

/-- `busy_slots.sort()` — Python sorts the `(start, end)` tuples
lexicographically. -/
def sortSlots (l : List (Int × Int)) : List (Int × Int) :=
  l.mergeSort fun a b => a.1 < b.1 || (a.1 == b.1 && a.2 ≤ b.2)

/-- The inner `for task in day_plan.tasks` loop (lines 137–147): find a slot,
record it (the calendar insert is an external effect), append it to the busy
set, re-sort, and advance the cursor past the slot end plus the ten-minute
inter-task break.  Returns the created slots in order, the final cursor and
the final busy set. -/
def scheduleTasks : List PlanTask → Int → List (Int × Int) →
    List (Int × Int) × Int × List (Int × Int)
  | [], cursor, busy => ([], cursor, busy)
  | t :: rest, cursor, busy =>
    let slot := find_next_available_slot cursor (t.duration : Int) busy
    let busy1 := sortSlots (busy ++ [slot])
    let cursor1 := slot.2 + 10
    let r := scheduleTasks rest cursor1 busy1
    (slot :: r.1, r.2.1, r.2.2)

/-- The outer `for day_plan in plan.daily_plans` loop (lines 130–147). -/
def scheduleDays : List DailyPlan → Int → Int → List (Int × Int) →
    List (Int × Int) × Int × List (Int × Int)
  | [], cursor, _, busy => ([], cursor, busy)
  | dp :: rest, cursor, prefHour, busy =>
    let cursor1 := alignToHour cursor prefHour
    let r1 := scheduleTasks dp.tasks cursor1 busy
    let r2 := scheduleDays rest r1.2.1 prefHour r1.2.2
    (r1.1 ++ r2.1, r2.2.1, r2.2.2)

/-- `smart_schedule_quests` (lines 99–147): scheduling starts at midnight of
`start_date` (day index × 1440); `busy0` is the busy set fetched from the
calendar.  Returns the slots created for the plan's tasks, in the plan's
day-then-task order. -/
def smart_schedule_quests (plan : CompletePlan) (start_date : Int)
    (preferred_hour : Int) (busy0 : List (Int × Int)) : List (Int × Int) :=
  (scheduleDays plan.daily_plans (start_date * 1440) preferred_hour busy0).1

/-! ## Markdown plan parser (`plan_parser.py`)

The parser is embedded character by character: Python `str.strip`,
`str.split('\n')`, the case-insensitive search for `Day\s+(\d+)` and the
anchored match of `-\s+(\d+)\s*mins?:\s*\*\*(.*?)\*\*\s*-\s*(.*)` are each
implemented over `List Char`, including the leftmost-search and
lazy-group semantics of the `re` module. -/

/-- Python `\s` / `str.strip` whitespace (ASCII range). -/
def pyIsSpace (c : Char) : Bool :=
  c = ' ' || c = '\t' || c = '\n' || c = '\r' || c = '\x0b' || c = '\x0c'

/-- Python `str.strip()`: drop leading and trailing whitespace. -/
def pyStrip (s : String) : String :=
  ⟨((s.data.dropWhile pyIsSpace).reverse.dropWhile pyIsSpace).reverse⟩

/-- Python `str.split('\n')` over a character list. -/
def splitNewline (cs : List Char) : List (List Char) :=
  cs.foldr
    (fun c acc =>
      match acc with
      | [] => [[c]]
      | g :: gs => if c = '\n' then [] :: g :: gs else (c :: g) :: gs)
    [[]]

/-- `markdown_text.split('\n')`. -/
def pySplitLines (s : String) : List String :=
  (splitNewline s.data).map fun cs => ⟨cs⟩

/-- `int()` of a nonempty digit run. -/
def digitsToNat (ds : List Char) : Nat :=
  ds.foldl (fun n c => 10 * n + (c.toNat - '0'.toNat)) 0

/-- Try to match `Day\s+(\d+)` (IGNORECASE) anchored at the head of `cs`:
the literal word, at least one whitespace, then a maximal nonempty digit
run, whose value is returned. -/
def matchDayAt (cs : List Char) : Option Nat :=
  match cs with
  | d :: a :: y :: rest =>
    if d.toLower = 'd' ∧ a.toLower = 'a' ∧ y.toLower = 'y' then
      match rest.takeWhile pyIsSpace with
      | [] => none
      | _ :: _ =>
        match (rest.dropWhile pyIsSpace).takeWhile Char.isDigit with
        | [] => none
        | ds => some (digitsToNat ds)
    else none
  | _ => none

/-- `re.search(r'Day\s+(\d+)', line, re.IGNORECASE)`: leftmost match wins. -/
def findDayNum : List Char → Option Nat
  | [] => none
  | c :: rest =>
    match matchDayAt (c :: rest) with
    | some n => some n
    | none => findDayNum rest

/-- After the lazy title group, try to close it here:
`\*\*\s*-\s*(.*)` — the literal `**`, optional whitespace, the separator
dash, optional whitespace, then the description is the rest of the line. -/
def scanClose (cs : List Char) : Option (List Char) :=
  match cs with
  | '*' :: '*' :: t =>
    match t.dropWhile pyIsSpace with
    | '-' :: u => some (u.dropWhile pyIsSpace)
    | _ => none
  | _ => none

/-- The lazy group `(.*?)` before `\*\*\s*-\s*(.*)`: at each position first
try to close (shortest title), else extend the title by one character. -/
def scanName : List Char → Option (List Char × List Char)
  | [] => none
  | c :: rest =>
    match scanClose (c :: rest) with
    | some desc => some ([], desc)
    | none =>
      match scanName rest with
      | some (nm, desc) => some (c :: nm, desc)
      | none => none

/-- After `mins?:` comes `\s*\*\*` then the lazy title group. -/
def scanAfterColon (cs : List Char) : Option (List Char × List Char) :=
  match cs.dropWhile pyIsSpace with
  | '*' :: '*' :: r => scanName r
  | _ => none

/-- `task_pattern.match(line)` for
`-\s+(\d+)\s*mins?:\s*\*\*(.*?)\*\*\s*-\s*(.*)` anchored at the start of the
(stripped) line; yields `(duration, raw title, raw description)`. -/
def matchTask (cs : List Char) : Option (Nat × List Char × List Char) :=
  match cs with
  | '-' :: rest =>
    match rest.takeWhile pyIsSpace with
    | [] => none
    | _ :: _ =>
      let r1 := rest.dropWhile pyIsSpace
      match r1.takeWhile Char.isDigit with
      | [] => none
      | ds =>
        let r2 := (r1.dropWhile Char.isDigit).dropWhile pyIsSpace
        match r2 with
        | 'm' :: 'i' :: 'n' :: r3 =>
          match r3 with
          | 's' :: ':' :: r4 =>
            match scanAfterColon r4 with
            | some (nm, desc) => some (digitsToNat ds, nm, desc)
            | none => none
          | ':' :: r4 =>
            match scanAfterColon r4 with
            | some (nm, desc) => some (digitsToNat ds, nm, desc)
            | none => none
          | _ => none
        | _ => none
  | _ => none

/-- The three ways the loop body of `parse_markdown_to_plan` can treat a
stripped line: a day header (starts with `#` and `Day\s+(\d+)` is found in
it), a task item, or an ignored line. -/
inductive LineKind where
  | header (n : Nat)
  | task (t : PlanTask)
  | other
deriving DecidableEq, Repr

/-- Classification of one raw line, exactly as the loop body tests it:
strip, then the day-header test (with `continue`), then the task match.
Matched titles and descriptions are stripped (`group(2).strip()`,
`group(3).strip()`). -/
def classifyLine (raw : String) : LineKind :=
  let line := pyStrip raw
  if (findDayNum line.data).isSome ∧ line.data.head? = some '#' then
    match findDayNum line.data with
    | some n => .header n
    | none => .other
  else
    match matchTask line.data with
    | some (dur, nm, ds) => .task ⟨dur, pyStrip ⟨nm⟩, pyStrip ⟨ds⟩⟩
    | none => .other

/-- `true` on the kinds that affect the parser state. -/
def isSig : LineKind → Bool
  | .other => false
  | _ => true

/-- `true` exactly on day headers. -/
def isHeaderKind : LineKind → Bool
  | .header _ => true
  | _ => false

/-- The parser loop over classified lines, carrying `current_day` and
`current_tasks` and emitting flushed `DailyPlan`s in order; a day is flushed
when a new header arrives or input ends, and only if `current_day > 0` and
it accumulated at least one task (lines 17–39 of plan_parser.py). -/
def runLines : List LineKind → Nat → List PlanTask → List DailyPlan
  | [], d, acc => if 0 < d ∧ acc ≠ [] then [⟨d, acc⟩] else []
  | .header n :: rest, d, acc =>
    (if 0 < d ∧ acc ≠ [] then [⟨d, acc⟩] else []) ++ runLines rest n []
  | .task t :: rest, d, acc => runLines rest d (acc ++ [t])
  | .other :: rest, d, acc => runLines rest d acc

/-- `parse_markdown_to_plan` (plan_parser.py lines 5–41). -/
def parse_markdown_to_plan (md : String) : CompletePlan :=
  ⟨"Your custom strategy.", runLines ((pySplitLines md).map classifyLine) 0 []⟩

/-- The classified lines that affect the parser, in source order. -/
def sigLines (md : String) : List LineKind :=
  ((pySplitLines md).map classifyLine).filter isSig

/-- The significant-line footprint of one day block: its header followed by
its task lines. -/
def blockKinds (b : Nat × List PlanTask) : List LineKind :=
  .header b.1 :: b.2.map .task

/-! ## Game state (`backend/game_logic.py`, `backend/game_manager.py`,
`backend/quiz_engine.py`) -/

/-- The difficulty strings drawn by `random.choice(difficulties)`; the
drawing itself is injected as a function of the task id. -/
inductive Diff where
  | normal
  | hard
  | hardest
deriving DecidableEq, Repr

/-- The difficulty's string form. -/
def diffStr : Diff → String
  | .normal => "Normal"
  | .hard => "Hard"
  | .hardest => "Hardest"

/-- `{"Normal": 50, "Hard": 100, "Hardest": 150}[difficulty]`. -/
def baseXp : Diff → Nat
  | .normal => 50
  | .hard => 100
  | .hardest => 150

/-- One entry of the game-task list built by `init_game_state`.  The Python
value is a dict; the `'lives'` key is modelled as an `Option` so that a dict
without the key is `none`. -/
structure GTask where
  id : Nat
  day : String
  name : String
  desc : String
  status : String
  xp_reward : Nat
  type : String
  difficulty : String
  lives : Option Int
deriving DecidableEq, Repr

/-- `"mock" in task.name.lower()`. -/
def hasMock : List Char → Bool
  | [] => false
  | c :: rest =>
    (match c :: rest with
     | 'm' :: 'o' :: 'c' :: 'k' :: _ => true
     | _ => false) || hasMock rest

/-- Whether a task is a boss battle: its lowercased name contains "mock". -/
def isBossName (name : String) : Bool :=
  hasMock (name.data.map Char.toLower)

/-- One game task as built in the inner loop of `init_game_state`
(backend/game_logic.py lines 15–36).  `choice` injects
`random.choice(difficulties)`; boss tasks are forced to `Hardest`.
`xp = base + duration // 2`, bosses then get `int(xp * 1.5)`, and no
`'lives'` key is ever written. -/
def mkGTask (choice : Nat → Diff) (task_id : Nat) (dayNum : Nat) (t : PlanTask) : GTask :=
  let boss := isBossName t.name
  let diff := if boss then Diff.hardest else choice task_id
  let xp := baseXp diff + t.duration / 2
  let xp := if boss then 3 * xp / 2 else xp
  { id := task_id
    day := "Day " ++ toString dayNum
    name := t.name
    desc := t.description
    status := if task_id = 0 then "🔐 UNLOCKED" else "🔒 LOCKED"
    xp_reward := xp
    type := if boss then "BOSS BATTLE" else "QUEST"
    difficulty := diffStr diff
    lives := none }

/-- The inner `for task in day.tasks` loop, threading `task_id`. -/
def initTasks (choice : Nat → Diff) (dayNum : Nat) :
    Nat → List PlanTask → List GTask × Nat
  | task_id, [] => ([], task_id)
  | task_id, t :: rest =>
    let g := mkGTask choice task_id dayNum t
    let r := initTasks choice dayNum (task_id + 1) rest
    (g :: r.1, r.2)

/-- The outer `for day in plan.daily_plans` loop. -/
def initDays (choice : Nat → Diff) :
    Nat → List DailyPlan → List GTask
  | _, [] => []
  | task_id, dp :: rest =>
    let r := initTasks choice dp.day task_id dp.tasks
    r.1 ++ initDays choice r.2 rest

/-- `init_game_state` (backend/game_logic.py lines 8–38). -/
def init_game_state (plan : CompletePlan) (choice : Nat → Diff) : List GTask :=
  initDays choice 0 plan.daily_plans

/-- One quiz question dict from the quiz oracle. -/
structure Question where
  q : String
  options : List String
  correct_index : Nat
  justification : String
deriving DecidableEq, Repr

/-- `QUIZ_PASS_THRESHOLD` (backend/quiz_engine.py line 22) is the float
literal `0.67`.  An IEEE binary64 double in `[1/2, 1)` is `m / 2^53` with
`2^52 ≤ m < 2^53`; since `0.67 * 2^53 = 6034823500676464.64`, the double
nearest `0.67` has `m = 6034823500676465`, so the program's constant is
exactly `6034823500676465 / 2^53 = 0.67000000000000003996…`. -/
def QUIZ_PASS_THRESHOLD_NUM : Nat := 6034823500676465

/-- The exact rational value of the binary64 constant `0.67`. -/
def QUIZ_PASS_THRESHOLD : ℚ := (QUIZ_PASS_THRESHOLD_NUM : ℚ) / 2 ^ 53

/-- IEEE round-to-nearest, ties-to-even, of `P / 2^53` to a binary64
double, returned scaled back by `2^53`: `P` is kept when it already fits
in 53 bits, else it is rounded to the nearest multiple of `2^(k+1)` where
`53 + (k+1)` is the bit length of `P`, ties to the even quotient.  (The
search bound 200 covers every product this model is applied to,
`P < 2^253`; the threshold products of quizzes below `2^53` questions
stay under `2^106`.) -/
def rnd53 (P : Nat) : Nat :=
  match (List.range 200).find? fun k => P < 2 ^ (53 + k) with
  | none => P
  | some 0 => P
  | some (k + 1) =>
    let s := 2 ^ (k + 1)
    let q := P / s
    let r := P % s
    let half := 2 ^ k
    if half < r ∨ (r = half ∧ q % 2 = 1) then (q + 1) * s else q * s

/-- The pass decision of `process_quiz_submission` (game_manager.py line
293): `score >= QUIZ_PASS_THRESHOLD * len(quiz_data)`.  In Python this
means: convert `len(quiz_data)` to a double (exact below `2^53`),
multiply by the double `0.67` with a single round-to-nearest-even, then
compare the integer `score` against the resulting double exactly (CPython
compares ints to floats without converting the int).  Scaled by `2^53`
that is the integer test below. -/
def quiz_passed (score total : Nat) : Bool :=
  decide (rnd53 (QUIZ_PASS_THRESHOLD_NUM * total) ≤ 2 ^ 53 * score)

/-- The spec's pass threshold, the exact fraction `0.67 = 67/100` used by
the spec's rule `score ≥ ceil(pass_threshold · question_count)`: the
spec-side definition the code is compared against. -/
def spec_exact_threshold : ℚ := 67 / 100

/-- The loop body of `_grade_quiz` (game_manager.py lines 339–346), carrying
the enumeration index and the running score.  `options[correct_index]`
raises `IndexError` when the index is out of range; the Python guard
`i < len(user_answers) and user_answers[i] == correct_answer` is the
`get?`-and-compare. -/
def gradeAux (user_answers : List String) :
    Nat → Nat → List Question → Except String Nat
  | _, acc, [] => .ok acc
  | i, acc, qq :: rest =>
    match qq.options.get? qq.correct_index with
    | none => .error "IndexError: list index out of range"
    | some correct =>
      gradeAux user_answers (i + 1)
        (if user_answers.get? i = some correct then acc + 1 else acc) rest

/-- `GameManager._grade_quiz`. -/
def grade_quiz (user_answers : List String) (quiz_data : List Question) :
    Except String Nat :=
  gradeAux user_answers 0 0 quiz_data

/-- The number of indices whose user answer exactly equals the correct
option string — the score `_grade_quiz` computes when no index is out of
range, written as a total count. -/
def exactCountAux (user_answers : List String) : Nat → List Question → Nat
  | _, [] => 0
  | i, qq :: rest =>
    (match qq.options.get? qq.correct_index with
     | some correct => if user_answers.get? i = some correct then 1 else 0
     | none => 0) + exactCountAux user_answers (i + 1) rest

/-- Exact-match score over a whole quiz. -/
def exactMatchCount (user_answers : List String) (quiz : List Question) : Nat :=
  exactCountAux user_answers 0 quiz

/-- Modelled from the spec: the grading the spec describes compares the
*trimmed* user answer against the *trimmed* correct option
(`user_answers[i]` trimmed vs `options[correct_index]` trimmed); this count
is the spec's score, to be compared with `grade_quiz`. -/
def trimCountAux (user_answers : List String) : Nat → List Question → Nat
  | _, [] => 0
  | i, qq :: rest =>
    (match qq.options.get? qq.correct_index with
     | some correct =>
       match user_answers.get? i with
       | some a => if pyStrip a = pyStrip correct then 1 else 0
       | none => 0
     | none => 0) + trimCountAux user_answers (i + 1) rest

/-- Spec-side trimmed-match score over a whole quiz. -/
def trimMatchCount (user_answers : List String) (quiz : List Question) : Nat :=
  trimCountAux user_answers 0 quiz

/-- Python list indexing: an index `i` with `0 ≤ i < len` is itself, an
index with `-len ≤ i < 0` wraps to `len + i`, anything else raises
`IndexError` (`none`). -/
def pyIdx (len : Nat) (i : Int) : Option Nat :=
  if 0 ≤ i then
    if i < (len : Int) then some i.toNat else none
  else
    if 0 ≤ i + (len : Int) then some (i + (len : Int)).toNat else none

/-- `l[i]` with Python index semantics. -/
def pyGet (l : List α) (i : Int) : Option α :=
  (pyIdx l.length i).bind l.get?

/-- `l[i] = f(l[i])` with Python index semantics (an in-place item update;
`none` is an `IndexError`). -/
def pyUpdate (l : List α) (i : Int) (f : α → α) : Option (List α) :=
  match pyIdx l.length i with
  | none => none
  | some k =>
    match l.get? k with
    | none => none
    | some a => some (l.set k (f a))

/-- The GameManager fields the quiz flow touches: the game-task list, the
active quiz, the active task index (`-1` when none) and the per-task quiz
cache (a Python dict keyed by `int`, as an association list). -/
structure GMState where
  tasks : List GTask
  active_quiz : List Question
  active_task_idx : Int
  quizzes : List (Int × List Question)
deriving DecidableEq, Repr

/-- `task_index in self.quizzes` / `self.quizzes[task_index]`. -/
def dictFind (d : List (Int × List Question)) (k : Int) : Option (List Question) :=
  match d.find? fun kv => kv.1 == k with
  | some kv => some kv.2
  | none => none

/-- `self.quizzes[task_index] = v`. -/
def dictInsert (d : List (Int × List Question)) (k : Int) (v : List Question) :
    List (Int × List Question) :=
  match d.find? fun kv => kv.1 == k with
  | some _ => d.map fun kv => if kv.1 == k then (kv.1, v) else kv
  | none => d ++ [(k, v)]

/-- The result dict of `process_quiz_submission`.  `lives_left` is present
only on the failure path; `game_over` models the presence of the
`"game_over": True` key. -/
structure QuizResult where
  passed : Bool
  score : Nat
  total : Nat
  lives_left : Option Int
  game_over : Bool
deriving DecidableEq, Repr

/-- `process_quiz_submission` (game_manager.py lines 277–317).  Grades the
active quiz, then on a pass sets `tasks[idx]['status'] = "COMPLETED"` and —
whenever `idx + 1 < len(tasks)` — `tasks[idx+1]['status'] = "UNLOCKED"`
unconditionally; on a fail decrements `tasks[idx]['lives']` (a `KeyError`
when the dict has no `'lives'` key) and reports `game_over` when the
decremented count is `<= 0`.  An error carries the state at raise time. -/
def process_quiz_submission (s : GMState) (user_answers : List String) :
    Except (String × GMState) (GMState × QuizResult) :=
  let idx := s.active_task_idx
  let quiz_data := s.active_quiz
  match grade_quiz user_answers quiz_data with
  | .error e => .error (e, s)
  | .ok score =>
    if quiz_passed score quiz_data.length then
      match pyUpdate s.tasks idx (fun t => { t with status := "COMPLETED" }) with
      | none => .error ("IndexError: list index out of range", s)
      | some tasks1 =>
        if idx + 1 < (s.tasks.length : Int) then
          match pyUpdate tasks1 (idx + 1) (fun t => { t with status := "UNLOCKED" }) with
          | none => .error ("IndexError: list index out of range", { s with tasks := tasks1 })
          | some tasks2 =>
            .ok ({ s with tasks := tasks2 },
              ⟨true, score, quiz_data.length, none, false⟩)
        else
          .ok ({ s with tasks := tasks1 },
            ⟨true, score, quiz_data.length, none, false⟩)
    else
      match pyGet s.tasks idx with
      | none => .error ("IndexError: list index out of range", s)
      | some t =>
        match t.lives with
        | none => .error ("KeyError: 'lives'", s)
        | some lv =>
          match pyUpdate s.tasks idx (fun t => { t with lives := some (lv - 1) }) with
          | none => .error ("IndexError: list index out of range", s)
          | some tasks1 =>
            .ok ({ s with tasks := tasks1 },
              ⟨false, score, quiz_data.length, some (lv - 1), decide (lv - 1 ≤ 0)⟩)

/-- A question as sent to the client: the `correct_index` and
`justification` keys are filtered out. -/
structure ClientQuestion where
  q : String
  options : List String
deriving DecidableEq, Repr

/-- `start_new_quiz` (game_manager.py lines 182–235).  Only
`task_index >= len(self.tasks)` is rejected up front (`ValueError`);
`self.tasks[task_index]` then applies Python index semantics, so a negative
in-range index wraps around.  The quiz oracle `gen` stands for
`generate_quiz_for_task(role, name, desc, difficulty)`.  The background
prefetch tasks are fire-and-forget concurrency and are not modelled.
An error carries the state at raise time. -/
def start_new_quiz (s : GMState) (task_index : Int)
    (gen : String → String → String → List Question) :
    Except (String × GMState) (GMState × List ClientQuestion × String) :=
  if task_index ≥ (s.tasks.length : Int) then
    .error ("ValueError: task index out of bounds", s)
  else
    match pyGet s.tasks task_index with
    | none => .error ("IndexError: list index out of range", s)
    | some task =>
      let cached := dictFind s.quizzes task_index
      let quiz_questions :=
        match cached with
        | some qs => qs
        | none => gen task.name task.desc task.difficulty
      let quizzes1 :=
        match cached with
        | some _ => s.quizzes
        | none => dictInsert s.quizzes task_index quiz_questions
      let s1 := { s with
        quizzes := quizzes1
        active_quiz := quiz_questions
        active_task_idx := task_index }
      .ok (s1, quiz_questions.map fun qq => ⟨qq.q, qq.options⟩, task.name)

/-! ## Theorems -/

/-- C1: for every search start, positive duration and busy list, the slot
finder returns an interval overlapping no busy slot under the half-open
test `start < busy.end ∧ end > busy.start`, and on the empty busy list it
returns exactly `(search_start, search_start + duration)`. -/
theorem claim_C1_slot_finder_no_overlap (ps dur : Int) (busy : List (Int × Int))
    (hdur : 0 < dur) :
    (∀ b ∈ busy, ¬((find_next_available_slot ps dur busy).1 < b.2 ∧
        (find_next_available_slot ps dur busy).2 > b.1)) ∧
    find_next_available_slot ps dur [] = (ps, ps + dur) := by
  constructor
  · have h := (find_next_available_slot_spec ps dur busy).2
    exact (findConflict_eq_none_iff _ _ busy).mp h
  · rw [find_next_available_slot]
    rfl

theorem claim_C1_witness :
    (¬((find_next_available_slot 0 60 [(30, 100)]).1 < 100 ∧
        (find_next_available_slot 0 60 [(30, 100)]).2 > 30)) ∧
    find_next_available_slot 0 60 [] = (0, 0 + 60) :=
  ⟨(claim_C1_slot_finder_no_overlap 0 60 [(30, 100)] (by norm_num)).1 (30, 100)
      (by simp),
    (claim_C1_slot_finder_no_overlap 0 60 [] (by norm_num)).2⟩

/-- C2: the conflict-resolution loop terminates: running the loop with an
iteration cap of `length busy + 1` already returns (it equals the uncapped
loop's result wrapped in `some`), because each detected conflict moves the
proposed start to `busy_end + 1` for the end `busy_end` of some busy slot
strictly ahead of the current proposed start. -/
theorem claim_C2_slot_finder_terminates (ps dur : Int) (busy : List (Int × Int)) :
    findSlotFuel (busy.length + 1) ps dur busy =
      some (find_next_available_slot ps dur busy) ∧
    (∀ q qe be, findConflict q qe busy = some be →
      q < be ∧ ∃ b ∈ busy, be = b.2) := by
  constructor
  · exact findSlotFuel_eq_of_lt dur busy (busy.length + 1) ps
      (Nat.lt_succ_of_le (List.length_filter_le _ busy))
  · intro q qe be h
    exact findConflict_some q qe h

theorem claim_C2_witness :
    findSlotFuel 2 0 7 [(0, 10)] = some (find_next_available_slot 0 7 [(0, 10)]) ∧
    ((0 : Int) < 10 ∧ ∃ b ∈ [((0 : Int), (10 : Int))], (10 : Int) = b.2) :=
  ⟨(claim_C2_slot_finder_terminates 0 7 [(0, 10)]).1,
    (claim_C2_slot_finder_terminates 0 7 [(0, 10)]).2 0 7 10 (by rfl)⟩

/-- Sorting the busy list does not change its members. -/
theorem mem_sortSlots (x : Int × Int) (l : List (Int × Int)) :
    x ∈ sortSlots l ↔ x ∈ l :=
  (List.mergeSort_perm l _).mem_iff

/-- When every busy end is at or before the cursor, the very first proposal
is free: the slot finder returns `(cursor, cursor + duration)` at once. -/
theorem find_next_available_slot_of_past (c dur : Int) (busy : List (Int × Int))
    (h : ∀ b ∈ busy, b.2 ≤ c) :
    find_next_available_slot c dur busy = (c, c + dur) := by
  have hnone : findConflict c (c + dur) busy = none :=
    (findConflict_eq_none_iff _ _ busy).mpr fun b hb hcontra => by
      have := h b hb
      omega
  rw [find_next_available_slot]
  split
  · rfl
  · rename_i be hsome
    rw [hnone] at hsome
    exact absurd hsome (by simp)

/-- Invariant of the inner scheduling loop: starting with every busy end at
or before the cursor, each task is placed at the cursor, slots are emitted
with the tasks' durations in order, ten-minute gaps separate consecutive
slots, and the invariant is re-established at the final cursor. -/
theorem scheduleTasks_spec (ts : List PlanTask) :
    ∀ (c : Int) (busy : List (Int × Int)), (∀ b ∈ busy, b.2 ≤ c) →
    ((scheduleTasks ts c busy).1.map (fun p => p.2 - p.1) =
        ts.map fun t => (t.duration : Int)) ∧
    c ≤ (scheduleTasks ts c busy).2.1 ∧
    (∀ b ∈ (scheduleTasks ts c busy).2.2, b.2 ≤ (scheduleTasks ts c busy).2.1) ∧
    (∀ p ∈ (scheduleTasks ts c busy).1,
        c ≤ p.1 ∧ p.2 + 10 ≤ (scheduleTasks ts c busy).2.1) ∧
    (scheduleTasks ts c busy).1.Pairwise fun a b => a.2 + 10 ≤ b.1 := by
  induction ts with
  | nil =>
    intro c busy hinv
    simp only [scheduleTasks]
    exact ⟨rfl, le_refl c, hinv, by simp, List.Pairwise.nil⟩
  | cons t rest ih =>
    intro c busy hinv
    have hfind := find_next_available_slot_of_past c (t.duration : Int) busy hinv
    have hinv1 : ∀ b ∈ sortSlots (busy ++ [(c, c + (t.duration : Int))]),
        b.2 ≤ c + (t.duration : Int) + 10 := by
      intro b hb
      rcases List.mem_append.mp ((mem_sortSlots b _).mp hb) with h1 | h2
      · have := hinv b h1
        have hd : (0 : Int) ≤ (t.duration : Int) := Int.natCast_nonneg _
        omega
      · simp at h2
        subst h2
        omega
    have hrest := ih (c + (t.duration : Int) + 10)
      (sortSlots (busy ++ [(c, c + (t.duration : Int))])) hinv1
    have hd : (0 : Int) ≤ (t.duration : Int) := Int.natCast_nonneg _
    simp only [scheduleTasks, hfind] at *
    refine ⟨?_, ?_, ?_, ?_, ?_⟩
    · simp only [List.map_cons]
      rw [hrest.1]
      simp
    · have := hrest.2.1
      omega
    · exact hrest.2.2.1
    · intro p hp
      rcases List.mem_cons.mp hp with h1 | h2
      · subst h1
        have := hrest.2.1
        constructor
        · omega
        · simpa using this
      · have := hrest.2.2.2.1 p h2
        constructor
        · omega
        · exact this.2
    · refine List.Pairwise.cons ?_ hrest.2.2.2.2
      intro p hp
      have := (hrest.2.2.2.1 p hp).1
      simpa using this

/-- The day re-alignment never moves the cursor backward when the preferred
hour is nonnegative. -/
theorem alignToHour_ge (c prefHour : Int) (h : 0 ≤ prefHour) :
    c ≤ alignToHour c prefHour := by
  have h1 : 0 ≤ c % 1440 := Int.emod_nonneg c (by norm_num)
  have h2 : c % 1440 < 1440 := Int.emod_lt_of_pos c (by norm_num)
  simp only [alignToHour]
  split <;> omega

/-- Invariant of the outer per-day loop: slots are emitted day by day with
the plan's durations in order, ten-minute gaps pairwise, and all slots sit
between the initial and final cursors. -/
theorem scheduleDays_spec (dps : List DailyPlan) (prefHour : Int)
    (hph : 0 ≤ prefHour) :
    ∀ (c : Int) (busy : List (Int × Int)), (∀ b ∈ busy, b.2 ≤ c) →
    ((scheduleDays dps c prefHour busy).1.map (fun p => p.2 - p.1) =
        (dps.map fun dp => dp.tasks.map fun t => (t.duration : Int)).flatten) ∧
    c ≤ (scheduleDays dps c prefHour busy).2.1 ∧
    (∀ b ∈ (scheduleDays dps c prefHour busy).2.2,
        b.2 ≤ (scheduleDays dps c prefHour busy).2.1) ∧
    (∀ p ∈ (scheduleDays dps c prefHour busy).1,
        c ≤ p.1 ∧ p.2 + 10 ≤ (scheduleDays dps c prefHour busy).2.1) ∧
    (scheduleDays dps c prefHour busy).1.Pairwise fun a b => a.2 + 10 ≤ b.1 := by
  induction dps with
  | nil =>
    intro c busy hinv
    simp only [scheduleDays]
    exact ⟨by simp, le_refl c, hinv, by simp, List.Pairwise.nil⟩
  | cons dp rest ih =>
    intro c busy hinv
    have halign := alignToHour_ge c prefHour hph
    have hinv1 : ∀ b ∈ busy, b.2 ≤ alignToHour c prefHour := by
      intro b hb
      have := hinv b hb
      omega
    have h1 := scheduleTasks_spec dp.tasks (alignToHour c prefHour) busy hinv1
    have h2 := ih (scheduleTasks dp.tasks (alignToHour c prefHour) busy).2.1
      (scheduleTasks dp.tasks (alignToHour c prefHour) busy).2.2 h1.2.2.1
    simp only [scheduleDays] at *
    refine ⟨?_, ?_, ?_, ?_, ?_⟩
    · simp only [List.map_append, List.map_cons, List.flatten_cons]
      rw [h1.1, h2.1]
    · have := h1.2.1
      have := h2.2.1
      omega
    · exact h2.2.2.1
    · intro p hp
      rcases List.mem_append.mp hp with hp1 | hp2
      · have ha := h1.2.2.2.1 p hp1
        have := h2.2.1
        constructor
        · omega
        · omega
      · have ha := h2.2.2.2.1 p hp2
        have := h1.2.1
        constructor
        · omega
        · exact ha.2
    · rw [List.pairwise_append]
      refine ⟨h1.2.2.2.2, h2.2.2.2.2, ?_⟩
      intro a ha b hb
      have hA := (h1.2.2.2.1 a ha).2
      have hB := (h2.2.2.2.1 b hb).1
      omega

/-- C3: scheduling any plan with K total tasks against an empty calendar
appends exactly K busy slots, one per task in the plan's day-then-task
order (the i-th slot has the i-th task's duration), consecutive slots are
separated by the ten-minute inter-task break, and the slots are pairwise
non-overlapping under the half-open test. -/
theorem claim_C3_schedule_empty_calendar (plan : CompletePlan)
    (start_date prefHour : Int) (hph : 0 ≤ prefHour) :
    (smart_schedule_quests plan start_date prefHour []).length =
      (plan.daily_plans.map fun dp => dp.tasks.length).sum ∧
    ((smart_schedule_quests plan start_date prefHour []).map fun p => p.2 - p.1) =
      (plan.daily_plans.map fun dp => dp.tasks.map fun t => (t.duration : Int)).flatten ∧
    (smart_schedule_quests plan start_date prefHour []).Pairwise
      (fun a b => a.2 + 10 ≤ b.1) ∧
    (smart_schedule_quests plan start_date prefHour []).Pairwise
      (fun a b => ¬(a.1 < b.2 ∧ a.2 > b.1)) := by
  have h := scheduleDays_spec plan.daily_plans prefHour hph
    (start_date * 1440) [] (by simp)
  refine ⟨?_, h.1, h.2.2.2.2, ?_⟩
  · have hlen := congrArg List.length h.1
    simp only [List.length_map, List.length_join, List.map_map] at hlen
    rw [smart_schedule_quests] at *
    rw [hlen]
    congr 1
    simp [Function.comp]
  · exact h.2.2.2.2.imp fun {a b} hab => by omega

theorem claim_C3_witness :
    (0 : Int) ≤ 9 ∧
    (smart_schedule_quests
      ⟨"s", [⟨1, [⟨30, "A", "a"⟩, ⟨45, "B", "b"⟩]⟩, ⟨2, [⟨60, "C", "c"⟩]⟩]⟩
      0 9 []).length =
      ([⟨1, [⟨30, "A", "a"⟩, ⟨45, "B", "b"⟩]⟩,
        (⟨2, [⟨60, "C", "c"⟩]⟩ : DailyPlan)].map fun dp => dp.tasks.length).sum :=
  ⟨by norm_num,
    (claim_C3_schedule_empty_calendar
      ⟨"s", [⟨1, [⟨30, "A", "a"⟩, ⟨45, "B", "b"⟩]⟩, ⟨2, [⟨60, "C", "c"⟩]⟩]⟩
      0 9 (by norm_num)).1⟩

/-- The spec's exact-ceiling pass rule in integer form:
`score ≥ ⌈(67/100) · total⌉` iff `67 · total ≤ 100 · score`. -/
theorem spec_ceil_le_iff (score total : Nat) :
    Nat.ceil (spec_exact_threshold * (total : ℚ)) ≤ score ↔
      67 * total ≤ 100 * score := by
  rw [spec_exact_threshold, Nat.ceil_le, div_mul_eq_mul_div,
    div_le_iff (by norm_num : (0 : ℚ) < 100)]
  rw [show ((score : ℚ) * 100) = ((100 * score : Nat) : ℚ) by push_cast; ring,
    show ((67 : ℚ) * (total : ℚ)) = ((67 * total : Nat) : ℚ) by push_cast; ring]
  exact Nat.cast_le

set_option maxRecDepth 4000 in
/-- C4 (amended): below the first floating-point divergence — for every
question count `total < 1500` — the program's pass decision agrees with
the spec's exact-ceiling rule: passed iff `score ≥ ⌈0.67 · total⌉` with
the ceiling computed exactly; in particular a 5-question quiz fails at
score 3 and passes at score 4.  (The bound is forced: the binary64
product `0.67 * 1500` rounds up to `1005.0000000000001`, so the program
demands score 1006 where the exact ceiling is 1005 — see the
counterexample.) -/
theorem claim_C4_pass_threshold :
    (∀ score total : Nat, total < 1500 →
      (quiz_passed score total = true ↔
        Nat.ceil (spec_exact_threshold * (total : ℚ)) ≤ score)) ∧
    quiz_passed 3 5 = false ∧ quiz_passed 4 5 = true := by
  have hchunk : ∀ k < 15, ∀ r < 100,
      (rnd53 (QUIZ_PASS_THRESHOLD_NUM * (100 * k + r)) + 2 ^ 53 - 1) / 2 ^ 53 =
        (67 * (100 * k + r) + 99) / 100 := by decide
  refine ⟨?_, by decide, by decide⟩
  intro score total ht
  rw [quiz_passed, decide_eq_true_iff, spec_ceil_le_iff]
  have h53 : (2 : Nat) ^ 53 = 9007199254740992 := by norm_num
  have hd := hchunk (total / 100) (by omega) (total % 100) (by omega)
  rw [show 100 * (total / 100) + total % 100 = total from Nat.div_add_mod total 100]
    at hd
  rw [h53] at hd ⊢
  omega

theorem claim_C4_witness :
    quiz_passed 4 5 = true ↔
      Nat.ceil (spec_exact_threshold * ((5 : Nat) : ℚ)) ≤ 4 :=
  claim_C4_pass_threshold.1 4 5 (by norm_num)

/-- C4 counterexample: at 1500 questions the binary64 product
`0.67 * 1500` is `1005.0000000000001 > 1005`, so a score of 1005 — which
meets the claim's exact ceiling `⌈0.67 · 1500⌉ = 1005` — fails the
program's comparison: the claimed iff is false at
`(score, question_count) = (1005, 1500)`. -/
theorem claim_C4_counterexample :
    quiz_passed 1005 1500 = false ∧
    Nat.ceil (spec_exact_threshold * ((1500 : Nat) : ℚ)) ≤ 1005 := by
  constructor
  · decide
  · rw [show (((1500 : Nat) : ℚ)) = (1500 : ℚ) by norm_num, spec_exact_threshold,
      show (67 : ℚ) / 100 * 1500 = 1005 by norm_num]
    simp

/-- Only the significant lines (headers and task items) affect the parser
loop. -/
theorem runLines_filter_isSig (ks : List LineKind) :
    ∀ d acc, runLines (ks.filter isSig) d acc = runLines ks d acc := by
  induction ks with
  | nil => intro d acc; rfl
  | cons k rest ih =>
    intro d acc
    cases k with
    | header n => simpa [runLines, isSig] using ih n []
    | task t => simpa [runLines, isSig] using ih d (acc ++ [t])
    | other => simpa [runLines, isSig] using ih d acc

/-- A run of task lines only extends the accumulator. -/
theorem runLines_tasks (ts : List PlanTask) :
    ∀ (ks : List LineKind) d acc,
      runLines (ts.map LineKind.task ++ ks) d acc = runLines ks d (acc ++ ts) := by
  induction ts with
  | nil => intro ks d acc; simp
  | cons t rest ih =>
    intro ks d acc
    simp only [List.map_cons, List.cons_append, runLines, List.append_eq]
    rw [ih ks d (acc ++ [t])]
    simp

/-- Processing the day blocks with a nonempty open day flushes that day and
then each block in order. -/
theorem runLines_blocks (blocks : List (Nat × List PlanTask)) :
    ∀ d acc, 0 < d → acc ≠ [] →
      (∀ b ∈ blocks, b.2 ≠ [] ∧ 0 < b.1) →
      runLines (blocks.map blockKinds).flatten d acc =
        ⟨d, acc⟩ :: blocks.map fun b => ⟨b.1, b.2⟩ := by
  induction blocks with
  | nil =>
    intro d acc hd hacc _
    simp [runLines, hd, hacc]
  | cons b rest ih =>
    intro d acc hd hacc hall
    simp only [List.map_cons, List.flatten_cons, blockKinds, List.cons_append,
      runLines, List.append_eq]
    rw [if_pos ⟨hd, hacc⟩, runLines_tasks]
    simp only [List.nil_append]
    rw [ih b.1 b.2 (hall b (by simp)).2 (hall b (by simp)).1
      fun x hx => hall x (by simp [hx])]
    simp

/-- C7 (amended): for every markdown input whose significant lines are some
leading task lines (discarded) followed by day blocks — each a day header
with a *positive* day number followed by at least one task line — the parse
result has exactly those blocks as DailyPlans, in source order, with their
tasks in source order.  (The positivity proviso is forced: a `# Day 0`
header matches the day-header pattern but the flush guard `current_day > 0`
drops its block, see the counterexample.) -/
theorem claim_C7_parse_day_blocks (md : String) (pre : List PlanTask)
    (blocks : List (Nat × List PlanTask))
    (hsig : sigLines md = pre.map LineKind.task ++ (blocks.map blockKinds).flatten)
    (hne : ∀ b ∈ blocks, b.2 ≠ [])
    (hpos : ∀ b ∈ blocks, 0 < b.1) :
    (parse_markdown_to_plan md).daily_plans = blocks.map fun b => ⟨b.1, b.2⟩ := by
  have h0 : (parse_markdown_to_plan md).daily_plans =
      runLines ((pySplitLines md).map classifyLine) 0 [] := rfl
  rw [h0, ← runLines_filter_isSig]
  rw [show ((pySplitLines md).map classifyLine).filter isSig = sigLines md from rfl]
  rw [hsig, runLines_tasks]
  cases blocks with
  | nil => simp [runLines]
  | cons b rest =>
    simp only [List.map_cons, List.flatten_cons, blockKinds, List.cons_append,
      runLines, List.append_eq]
    rw [if_neg (by simp), runLines_tasks]
    simp only [List.nil_append]
    rw [runLines_blocks rest b.1 b.2 (hpos b (by simp)) (hne b (by simp))
      fun x hx => ⟨hne x (by simp [hx]), hpos x (by simp [hx])⟩]

theorem claim_C7_witness :
    sigLines "# Day 1\n- 30 mins: **X** - y\n# Day 2\n- 45 mins: **Z** - w" =
      ([] : List PlanTask).map LineKind.task ++
        ([(1, [⟨30, "X", "y"⟩]), (2, [⟨45, "Z", "w"⟩])].map blockKinds).flatten ∧
    (parse_markdown_to_plan
        "# Day 1\n- 30 mins: **X** - y\n# Day 2\n- 45 mins: **Z** - w").daily_plans =
      [⟨1, [⟨30, "X", "y"⟩]⟩, ⟨2, [⟨45, "Z", "w"⟩]⟩] :=
  ⟨by rfl,
    claim_C7_parse_day_blocks _ [] [(1, [⟨30, "X", "y"⟩]), (2, [⟨45, "Z", "w"⟩])]
      (by rfl) (by simp) (by simp)⟩

/-- C7 counterexample: `# Day 0` is a day header (it starts with `#` and
contains `Day` followed by an integer) and is followed by a well-formed
task line, so the claim as stated demands one DailyPlan; but the parser's
`current_day > 0` flush guard drops the block and returns zero DailyPlans. -/
theorem claim_C7_counterexample :
    sigLines "# Day 0\n- 5 mins: **A** - b" =
      [LineKind.header 0, LineKind.task ⟨5, "A", "b"⟩] ∧
    (parse_markdown_to_plan "# Day 0\n- 5 mins: **A** - b").daily_plans = [] :=
  ⟨by rfl, by rfl⟩

/-- If no line classifies as a day header the open-day counter stays `0`,
so nothing is ever flushed. -/
theorem runLines_no_header (ks : List LineKind) :
    ∀ acc, (∀ k ∈ ks, isHeaderKind k = false) → runLines ks 0 acc = [] := by
  induction ks with
  | nil => intro acc _; simp [runLines]
  | cons k rest ih =>
    intro acc hall
    cases k with
    | header n =>
      exact absurd (hall (LineKind.header n) (by simp)) (by simp [isHeaderKind])
    | task t => exact ih (acc ++ [t]) fun x hx => hall x (by simp [hx])
    | other => exact ih acc fun x hx => hall x (by simp [hx])

/-- C10: an input none of whose lines passes the day-header test (start
with `#` after stripping and contain `Day` followed by an integer) parses
to an empty `daily_plans`, even when it contains well-formed task lines:
task lines before the first day header are never attached to a DailyPlan. -/
theorem claim_C10_no_header_empty_plan (md : String)
    (h : ∀ l ∈ pySplitLines md, isHeaderKind (classifyLine l) = false) :
    (parse_markdown_to_plan md).daily_plans = [] := by
  have h0 : (parse_markdown_to_plan md).daily_plans =
      runLines ((pySplitLines md).map classifyLine) 0 [] := rfl
  rw [h0]
  apply runLines_no_header
  intro k hk
  obtain ⟨l, hl, hlk⟩ := List.mem_map.mp hk
  exact hlk ▸ h l hl

theorem claim_C10_witness :
    (∀ l ∈ pySplitLines "- 5 mins: **A** - b\nhello",
      isHeaderKind (classifyLine l) = false) ∧
    (parse_markdown_to_plan "- 5 mins: **A** - b\nhello").daily_plans = [] :=
  ⟨by decide,
    claim_C10_no_header_empty_plan "- 5 mins: **A** - b\nhello" (by decide)⟩

/-- When every question's `correct_index` is in range, grading never raises
and returns the running count of exact matches. -/
theorem gradeAux_ok (ua : List String) (quiz : List Question) :
    ∀ i acc, (∀ qq ∈ quiz, qq.correct_index < qq.options.length) →
      gradeAux ua i acc quiz = .ok (acc + exactCountAux ua i quiz) := by
  induction quiz with
  | nil => intro i acc _; simp [gradeAux, exactCountAux]
  | cons qq rest ih =>
    intro i acc hall
    have hlt : qq.correct_index < qq.options.length := hall qq (by simp)
    obtain ⟨ca, hca⟩ : ∃ ca, qq.options.get? qq.correct_index = some ca :=
      ⟨qq.options.get ⟨qq.correct_index, hlt⟩, List.get?_eq_get hlt⟩
    simp only [gradeAux, exactCountAux, hca]
    rw [ih (i + 1) _ fun x hx => hall x (by simp [hx])]
    by_cases hans : ua.get? i = some ca
    · simp only [hans, if_pos rfl, if_true]
      congr 1
      omega
    · simp only [if_neg hans]
      congr 1
      omega

/-- C8 (amended): for every answer list and question list whose correct
indices are in range, `_grade_quiz` returns (without raising) the count of
indices whose user answer equals `options[correct_index]` by *exact* string
equality — no trimming is applied; answers missing because the answer list
is short count as non-matches.  (Dropping the trimming is forced by the
counterexample.) -/
theorem claim_C8_grade_exact (ua : List String) (quiz : List Question)
    (hid : ∀ qq ∈ quiz, qq.correct_index < qq.options.length) :
    grade_quiz ua quiz = .ok (exactMatchCount ua quiz) := by
  have h := gradeAux_ok ua quiz 0 0 hid
  simpa [grade_quiz, exactMatchCount] using h

theorem claim_C8_witness :
    grade_quiz ["Yes", "x"]
        [⟨"q1", ["Yes", "No"], 0, "j"⟩, ⟨"q2", ["a", "b"], 1, "j"⟩] =
      .ok (exactMatchCount ["Yes", "x"]
        [⟨"q1", ["Yes", "No"], 0, "j"⟩, ⟨"q2", ["a", "b"], 1, "j"⟩]) :=
  claim_C8_grade_exact ["Yes", "x"]
    [⟨"q1", ["Yes", "No"], 0, "j"⟩, ⟨"q2", ["a", "b"], 1, "j"⟩] (by decide)

/-- C8 counterexample: the user answer `"A "` differs from the correct
option `"A"` only by trailing whitespace.  The claim's trimmed comparison
counts it as a match (score 1), but `_grade_quiz` compares untrimmed
strings and returns score 0. -/
theorem claim_C8_counterexample :
    grade_quiz ["A "] [⟨"q", ["A", "B"], 0, "j"⟩] = .ok 0 ∧
    trimMatchCount ["A "] [⟨"q", ["A", "B"], 0, "j"⟩] = 1 :=
  ⟨by rfl, by rfl⟩

/-- C6: the claim (and the GameManager's own docstring, "Initializing and
maintaining the game state (tasks, player lives)") says every game task
starts with a `lives` counter that a failed quiz decrements without
raising; but `init_game_state` never writes a `'lives'` key, so the first
failed submission's `self.tasks[idx]['lives'] -= 1` raises
`KeyError: 'lives'`.  Evaluated here on a one-task plan with a failing
answer. -/
theorem claim_C6_lives_keyerror :
    ((init_game_state ⟨"s", [⟨1, [⟨30, "A", "a"⟩]⟩]⟩ fun _ => Diff.normal).map
        GTask.lives = [none]) ∧
    process_quiz_submission
        ⟨init_game_state ⟨"s", [⟨1, [⟨30, "A", "a"⟩]⟩]⟩ fun _ => Diff.normal,
          [⟨"q", ["Yes", "No"], 0, "j"⟩], 0, []⟩ ["No"] =
      .error ("KeyError: 'lives'",
        ⟨init_game_state ⟨"s", [⟨1, [⟨30, "A", "a"⟩]⟩]⟩ fun _ => Diff.normal,
          [⟨"q", ["Yes", "No"], 0, "j"⟩], 0, []⟩) := by
  constructor
  · rfl
  · have hq : quiz_passed 0
        [(⟨"q", ["Yes", "No"], 0, "j"⟩ : Question)].length = false := by decide
    simp only [process_quiz_submission]
    rw [show grade_quiz ["No"] [⟨"q", ["Yes", "No"], 0, "j"⟩] = .ok 0 from rfl]
    simp only [hq, Bool.false_eq_true, if_false]
    rfl

/-- C9 (amended): `start_new_quiz` rejects an index only when it is `>=
len(tasks)` (the explicit `ValueError` guard) or below `-len(tasks)` (the
`IndexError` from `self.tasks[task_index]`); in both cases the state is
unchanged.  Negative indices in `[-len, -1]` are *not* rejected: Python
indexing wraps them around and the quiz starts (see the counterexample). -/
theorem claim_C9_out_of_range_rejected (s : GMState) (idx : Int)
    (gen : String → String → String → List Question)
    (h : (s.tasks.length : Int) ≤ idx ∨ idx + (s.tasks.length : Int) < 0) :
    ∃ msg, start_new_quiz s idx gen = .error (msg, s) := by
  have hlen : (0 : Int) ≤ (s.tasks.length : Int) := Int.natCast_nonneg _
  rcases h with h | h
  · refine ⟨"ValueError: task index out of bounds", ?_⟩
    simp only [start_new_quiz]
    rw [if_pos h]
  · have hn : ¬ ((s.tasks.length : Int) ≤ idx) := by omega
    have hget : pyGet s.tasks idx = none := by
      have h0 : ¬ ((0 : Int) ≤ idx) := by omega
      have h1 : ¬ ((0 : Int) ≤ idx + (s.tasks.length : Int)) := by omega
      simp only [pyGet, pyIdx, if_neg h0, if_neg h1]
      rfl
    refine ⟨"IndexError: list index out of range", ?_⟩
    simp only [start_new_quiz, ge_iff_le]
    rw [if_neg hn, hget]

theorem claim_C9_witness :
    ∃ msg, start_new_quiz
        ⟨[⟨0, "Day 1", "A", "d", "🔐 UNLOCKED", 50, "QUEST", "Normal", none⟩],
          [], -1, []⟩ 5 (fun _ _ _ => []) =
      .error (msg,
        ⟨[⟨0, "Day 1", "A", "d", "🔐 UNLOCKED", 50, "QUEST", "Normal", none⟩],
          [], -1, []⟩) :=
  claim_C9_out_of_range_rejected
    ⟨[⟨0, "Day 1", "A", "d", "🔐 UNLOCKED", 50, "QUEST", "Normal", none⟩],
      [], -1, []⟩ 5 (fun _ _ _ => []) (Or.inl (by norm_num))

/-- C9 counterexample: index `-1` on a one-task list is outside `[0, 1)`,
but instead of being rejected it wraps to the last task: the call succeeds
and mutates the state (the quiz cache gains key `-1`, the active quiz and
active task index change). -/
theorem claim_C9_counterexample :
    start_new_quiz
        ⟨[⟨0, "Day 1", "A", "d", "🔐 UNLOCKED", 50, "QUEST", "Normal", none⟩],
          [], -1, []⟩ (-1) (fun _ _ _ => [⟨"gq", ["x", "y"], 0, "j"⟩]) =
      .ok
        (⟨[⟨0, "Day 1", "A", "d", "🔐 UNLOCKED", 50, "QUEST", "Normal", none⟩],
            [⟨"gq", ["x", "y"], 0, "j"⟩], -1, [(-1, [⟨"gq", ["x", "y"], 0, "j"⟩])]⟩,
          [⟨"gq", ["x", "y"]⟩], "A") ∧
    (⟨[⟨0, "Day 1", "A", "d", "🔐 UNLOCKED", 50, "QUEST", "Normal", none⟩],
        [⟨"gq", ["x", "y"], 0, "j"⟩], -1, [(-1, [⟨"gq", ["x", "y"], 0, "j"⟩])]⟩ :
      GMState) ≠
    ⟨[⟨0, "Day 1", "A", "d", "🔐 UNLOCKED", 50, "QUEST", "Normal", none⟩],
      [], -1, []⟩ :=
  ⟨by rfl, by decide⟩

/-- A nonnegative Python index is the plain index, bounds-checked. -/
theorem pyIdx_natCast (len i : Nat) :
    pyIdx len (i : Int) = if i < len then some i else none := by
  simp only [pyIdx, if_pos (Int.natCast_nonneg i)]
  by_cases h : i < len
  · rw [if_pos (by exact_mod_cast h), if_pos h, Int.toNat_natCast]
  · rw [if_neg (by exact_mod_cast h), if_neg h]

/-- Updating at an in-range nonnegative Python index is `List.set`. -/
theorem pyUpdate_natCast (l : List α) (i : Nat) (f : α → α) (a : α)
    (ha : l[i]? = some a) :
    pyUpdate l (i : Int) f = some (l.set i (f a)) := by
  have hi : i < l.length := by
    by_contra h
    rw [List.getElem?_eq_none (Nat.le_of_not_lt h)] at ha
    exact absurd ha (by simp)
  simp only [pyUpdate, pyIdx_natCast, hi, if_true, List.get?_eq_getElem?, ha]

/-- Setting an in-range position is seen by `getElem?` at that position. -/
theorem getElem?_set_self_of_lt (l : List α) (a : α) (i : Nat) (h : i < l.length) :
    (l.set i a)[i]? = some a := by
  simp [List.getElem?_set_self', List.getElem?_eq_getElem, h]

/-- C5 (amended): a passed quiz at active index `i` marks task `i`
`COMPLETED` and, when task `i+1` exists, *unconditionally overwrites* its
status with `UNLOCKED` — a no-op when it was already `UNLOCKED`, but a
regression when it was `COMPLETED` (see the counterexample); every task
other than `i` and `i+1` is unchanged, as are the other state fields. -/
theorem claim_C5_pass_transitions (s : GMState) (ua : List String) (i score : Nat)
    (hactive : s.active_task_idx = (i : Int))
    (hi : i < s.tasks.length)
    (hgrade : grade_quiz ua s.active_quiz = .ok score)
    (hpass : quiz_passed score s.active_quiz.length = true) :
    ∃ s' r, process_quiz_submission s ua = .ok (s', r) ∧
      r = ⟨true, score, s.active_quiz.length, none, false⟩ ∧
      s'.tasks.length = s.tasks.length ∧
      (∀ t, s.tasks[i]? = some t →
        s'.tasks[i]? = some { t with status := "COMPLETED" }) ∧
      (∀ t, s.tasks[i + 1]? = some t →
        s'.tasks[i + 1]? = some { t with status := "UNLOCKED" }) ∧
      (∀ j, j ≠ i → j ≠ i + 1 → s'.tasks[j]? = s.tasks[j]?) ∧
      s'.active_quiz = s.active_quiz ∧
      s'.active_task_idx = s.active_task_idx ∧
      s'.quizzes = s.quizzes := by
  have ht0 : s.tasks[i]? = some (s.tasks.get ⟨i, hi⟩) := by
    simp [List.getElem?_eq_getElem, hi]
  have hupd1 := pyUpdate_natCast s.tasks i
    (fun t => { t with status := "COMPLETED" }) _ ht0
  by_cases hc : i + 1 < s.tasks.length
  · have ht1 : s.tasks[i + 1]? = some (s.tasks.get ⟨i + 1, hc⟩) := by
      simp [List.getElem?_eq_getElem, hc]
    have ht1' : (s.tasks.set i
        { s.tasks.get ⟨i, hi⟩ with status := "COMPLETED" })[i + 1]? =
        some (s.tasks.get ⟨i + 1, hc⟩) := by
      rw [List.getElem?_set_ne (by omega), ht1]
    have hupd2 := pyUpdate_natCast
      (s.tasks.set i { s.tasks.get ⟨i, hi⟩ with status := "COMPLETED" })
      (i + 1) (fun t => { t with status := "UNLOCKED" }) _ ht1'
    have hcast : (i : Int) + 1 = ((i + 1 : Nat) : Int) := by push_cast; ring
    have hmain : process_quiz_submission s ua =
        .ok ({ s with
              tasks :=
                (s.tasks.set i
                    { s.tasks.get ⟨i, hi⟩ with status := "COMPLETED" }).set
                  (i + 1)
                  { s.tasks.get ⟨i + 1, hc⟩ with status := "UNLOCKED" } },
          ⟨true, score, s.active_quiz.length, none, false⟩) := by
      simp only [process_quiz_submission, hactive, hgrade, hpass, if_true,
        hupd1, hcast]
      rw [if_pos (by exact_mod_cast hc), hupd2]
    refine ⟨_, _, hmain, rfl, ?_, ?_, ?_, ?_, rfl, rfl, rfl⟩
    · simp
    · intro t ht
      rw [ht0] at ht
      obtain rfl : s.tasks.get ⟨i, hi⟩ = t := Option.some.inj ht
      show ((s.tasks.set i _).set (i + 1) _)[i]? = _
      rw [List.getElem?_set_ne (by omega), getElem?_set_self_of_lt _ _ _ hi]
    · intro t ht
      rw [ht1] at ht
      obtain rfl : s.tasks.get ⟨i + 1, hc⟩ = t := Option.some.inj ht
      show ((s.tasks.set i _).set (i + 1) _)[i + 1]? = _
      rw [getElem?_set_self_of_lt _ _ _ (by simpa using hc)]
    · intro j hj1 hj2
      show ((s.tasks.set i _).set (i + 1) _)[j]? = _
      rw [List.getElem?_set_ne (by omega), List.getElem?_set_ne (by omega)]
  · have hmain : process_quiz_submission s ua =
        .ok ({ s with
              tasks :=
                s.tasks.set i
                  { s.tasks.get ⟨i, hi⟩ with status := "COMPLETED" } },
          ⟨true, score, s.active_quiz.length, none, false⟩) := by
      simp only [process_quiz_submission, hactive, hgrade, hpass, if_true,
        hupd1]
      rw [if_neg (by exact_mod_cast hc)]
    refine ⟨_, _, hmain, rfl, ?_, ?_, ?_, ?_, rfl, rfl, rfl⟩
    · simp
    · intro t ht
      rw [ht0] at ht
      obtain rfl : s.tasks.get ⟨i, hi⟩ = t := Option.some.inj ht
      show (s.tasks.set i _)[i]? = _
      rw [getElem?_set_self_of_lt _ _ _ hi]
    · intro t ht
      rw [List.getElem?_eq_none (by omega)] at ht
      exact absurd ht (by simp)
    · intro j hj1 _
      show (s.tasks.set i _)[j]? = _
      rw [List.getElem?_set_ne (by omega)]

theorem claim_C5_witness :
    ∃ s' r, process_quiz_submission
        ⟨[⟨0, "Day 1", "A", "d", "🔐 UNLOCKED", 50, "QUEST", "Normal", none⟩,
          ⟨1, "Day 1", "B", "d", "🔒 LOCKED", 60, "QUEST", "Hard", none⟩],
          [⟨"q", ["Yes", "No"], 0, "j"⟩], 0, []⟩ ["Yes"] = .ok (s', r) ∧
      r = ⟨true, 1, 1, none, false⟩ ∧
      s'.tasks.length = 2 ∧
      (∀ t, ([⟨0, "Day 1", "A", "d", "🔐 UNLOCKED", 50, "QUEST", "Normal", none⟩,
          ⟨1, "Day 1", "B", "d", "🔒 LOCKED", 60, "QUEST", "Hard", none⟩] :
            List GTask)[0]? = some t →
        s'.tasks[0]? = some { t with status := "COMPLETED" }) ∧
      (∀ t, ([⟨0, "Day 1", "A", "d", "🔐 UNLOCKED", 50, "QUEST", "Normal", none⟩,
          ⟨1, "Day 1", "B", "d", "🔒 LOCKED", 60, "QUEST", "Hard", none⟩] :
            List GTask)[0 + 1]? = some t →
        s'.tasks[0 + 1]? = some { t with status := "UNLOCKED" }) ∧
      (∀ j, j ≠ 0 → j ≠ 0 + 1 →
        s'.tasks[j]? =
          ([⟨0, "Day 1", "A", "d", "🔐 UNLOCKED", 50, "QUEST", "Normal", none⟩,
            ⟨1, "Day 1", "B", "d", "🔒 LOCKED", 60, "QUEST", "Hard", none⟩] :
              List GTask)[j]?) ∧
      s'.active_quiz = [⟨"q", ["Yes", "No"], 0, "j"⟩] ∧
      s'.active_task_idx = 0 ∧
      s'.quizzes = [] :=
  claim_C5_pass_transitions
    ⟨[⟨0, "Day 1", "A", "d", "🔐 UNLOCKED", 50, "QUEST", "Normal", none⟩,
      ⟨1, "Day 1", "B", "d", "🔒 LOCKED", 60, "QUEST", "Hard", none⟩],
      [⟨"q", ["Yes", "No"], 0, "j"⟩], 0, []⟩ ["Yes"] 0 1 (by norm_num)
    (by norm_num) (by rfl) (by decide)

/-- C5 counterexample: starting from a state whose task 1 is already
`COMPLETED`, passing the quiz for task 0 overwrites task 1's status with
`UNLOCKED` — the unlock is not a no-op and regresses a completed task,
contradicting the claim's idempotence clause. -/
theorem claim_C5_counterexample :
    process_quiz_submission
        ⟨[⟨0, "Day 1", "A", "d", "🔐 UNLOCKED", 50, "QUEST", "Normal", none⟩,
          ⟨1, "Day 1", "B", "d", "COMPLETED", 60, "QUEST", "Hard", none⟩],
          [⟨"q", ["Yes", "No"], 0, "j"⟩], 0, []⟩ ["Yes"] =
      .ok (⟨[⟨0, "Day 1", "A", "d", "COMPLETED", 50, "QUEST", "Normal", none⟩,
            ⟨1, "Day 1", "B", "d", "UNLOCKED", 60, "QUEST", "Hard", none⟩],
          [⟨"q", ["Yes", "No"], 0, "j"⟩], 0, []⟩,
        ⟨true, 1, 1, none, false⟩) := by
  have hq : quiz_passed 1
      [(⟨"q", ["Yes", "No"], 0, "j"⟩ : Question)].length = true := by decide
  simp only [process_quiz_submission]
  rw [show grade_quiz ["Yes"] [⟨"q", ["Yes", "No"], 0, "j"⟩] = .ok 1 from rfl]
  simp only [hq, if_true]
  rfl
